import Mathlib

/-!
Shallow embedding of the `tinyvec` small-buffer vector from `src/lib.rs`.

The Rust container `tinyvec<T, N>` holds:
  - `stack : [MaybeUninit<T>; N]` — modelled as `List (Option T)` where
    `none` stands for an uninitialized (`MaybeUninit::uninit`) slot;
    a raw read of an uninitialized slot (undefined behavior in Rust)
    is modelled as producing `none`;
  - `heap : Vec<T>` — modelled as `List T` (capacity is not modelled:
    it never affects values);
  - `counter : usize` — the logical length, modelled as `Nat`;
  - `iters : step_iter` — the iteration cursor.

Fallible points of the source are made explicit:
  - `remove` in the spill branch evaluates `self.heap[index]`, a Rust
    indexing operation that panics when out of bounds; the model returns
    `none` (of the outer `Option`) for that panic;
  - `pop` and `get` return the raw slot contents, so a read of an
    uninitialized slot surfaces as `none`.
-/

namespace TinyvecModel

/-- The iteration-cursor state, from the Rust enum `step_iter`. -/
inductive step_iter : Type where
  | Not : step_iter
  | Yes : Nat → step_iter
deriving DecidableEq

/-- The container `tinyvec<T, N>`: inline stack of `N` maybe-uninitialized
slots, spill heap, logical length `counter`, and iteration cursor. -/
structure tinyvec (T : Type) (N : Nat) where
  stack : List (Option T)
  heap : List T
  counter : Nat
  iters : step_iter
deriving DecidableEq

/-- Constructor `tinyvec::new()`: all `N` inline slots uninitialized, empty heap,
`counter = 0`, no iteration started. (The eager heap capacity reservation
`Vec::with_capacity(general_heap)` stores no values and is not modelled.) -/
def new (T : Type) (N : Nat) : tinyvec T N :=
  ⟨List.replicate N none, [], 0, step_iter.Not⟩

/-- Method `len()`: returns `counter`. -/
def len {T : Type} {N : Nat} (v : tinyvec T N) : Nat :=
  v.counter

/-- Method `push(element)`: if `counter >= N` append to the heap, else write inline
slot `counter`; then `counter += 1`. -/
def push {T : Type} {N : Nat} (v : tinyvec T N) (element : T) : tinyvec T N :=
  if v.counter ≥ N then
    { v with heap := v.heap ++ [element], counter := v.counter + 1 }
  else
    { v with stack := v.stack.set v.counter (some element), counter := v.counter + 1 }

/-- Method `get(at)`: `None` when `at >= counter`; otherwise a raw read of inline
slot `at` when `at < N` (an uninitialized slot surfaces as `none`), else
`heap[at - N]` (modelled by `List.get?`; in every reachable state the heap
index is in bounds). -/
def get {T : Type} {N : Nat} (v : tinyvec T N) (i : Nat) : Option T :=
  if i ≥ v.counter then none
  else if i < N then v.stack.getD i none
  else v.heap.get? (i - N)

/-- The inline shift of `remove`: `for i in index..N-1 \x7b stack[i] = stack[i+1] \x7d`,
executed left to right exactly as in the source. -/
def removeShiftLoop {T : Type} (stack : List (Option T)) (index : Nat) (N : Nat) :
    List (Option T) :=
  (List.range' index (N - 1 - index)).foldl (fun s i => s.set i (s.getD (i + 1) none)) stack

/-- Method `remove(index)`: `Some (None, v)` unchanged when `index >= counter`.
For an inline index, read slot `index`, run the shift loop, decrement
`counter`. For a spill index the source reads `self.heap[index]` — note:
NOT `index - N` — which panics when `index` is out of the heap's bounds;
the panic is modelled by the outer `none`. On the non-panicking path it
removes `heap[index - N]` order-preservingly and decrements `counter`. -/
def remove {T : Type} {N : Nat} (v : tinyvec T N) (index : Nat) :
    Option (Option T × tinyvec T N) :=
  if index ≥ v.counter then some (none, v)
  else if index < N then
    some (v.stack.getD index none,
      { v with stack := removeShiftLoop v.stack index N, counter := v.counter - 1 })
  else
    match v.heap.get? index with
    | none => none
    | some value =>
        some (some value,
          { v with heap := v.heap.eraseIdx (index - N), counter := v.counter - 1 })

/-- Method `pop()`: default when `counter = 0`; else if the heap is empty, a raw
read of inline slot `N - 1` (regardless of `counter`), marking it
uninitialized and decrementing `counter`; else pop the heap's last element
and decrement `counter`. The first component is the returned value, where
`none` marks a read of an uninitialized slot (undefined behavior in Rust). -/
def pop {T : Type} {N : Nat} [Inhabited T] (v : tinyvec T N) : Option T × tinyvec T N :=
  if v.counter = 0 then (some default, v)
  else if v.heap.isEmpty then
    (v.stack.getD (N - 1) none,
      { v with stack := v.stack.set (N - 1) none, counter := v.counter - 1 })
  else
    (some ((v.heap.getLast?).getD default),
      { v with heap := v.heap.dropLast, counter := v.counter - 1 })

/-- Method `extend(elements)`: `for i in elements.iter() \x7b self.push(*i) \x7d`. -/
def extend {T : Type} {N : Nat} (v : tinyvec T N) (elements : List T) : tinyvec T N :=
  elements.foldl (fun acc x => push acc x) v

/-- Method `Iterator::next()`: advance the cursor (from `Not` to `Yes 0`, from
`Yes idx` to `Yes (idx + 1)`), then if the new position `at` satisfies
`at <= counter` return `self.get(at)`, else `None`. -/
def next {T : Type} {N : Nat} (v : tinyvec T N) : Option T × tinyvec T N :=
  let iters' := match v.iters with
    | step_iter.Not => step_iter.Yes 0
    | step_iter.Yes idx => step_iter.Yes (idx + 1)
  let v' := { v with iters := iters' }
  match iters' with
  | step_iter.Yes a => if a ≤ v'.counter then (get v' a, v') else (none, v')
  | step_iter.Not => (none, v')

/-- The container state after `k` successive `next()` calls. -/
def iterState {T : Type} {N : Nat} (v : tinyvec T N) : Nat → tinyvec T N
  | 0 => v
  | k + 1 => (next (iterState v k)).2

/-- The item produced by the `(k+1)`-th `next()` call (0-indexed `k`). -/
def iterOut {T : Type} {N : Nat} (v : tinyvec T N) (k : Nat) : Option T :=
  (next (iterState v k)).1

/-- The opening text of the Display rendering. -/
def lbr : String := "[ "

/-- The closing bracket of the Display rendering. -/
def rbr : String := "]"

/-- The separator written after a non-final element. -/
def sepComma : String := ", "

/-- The trailing space written after the final element. -/
def sepSpace : String := " "

/-- The empty string. -/
def emptyStr : String := ""

/-- Method `Display::fmt`: start from `"[ "`; for `i in 0..counter` append the
rendering of `get(i).unwrap_or(default)`, then `" "` and break when
`i == counter - 1`, else `", "`; finally append `"]"`. The break fires
exactly on the last loop iteration, so it is modelled by the conditional
suffix inside a fold over the whole range. -/
def fmtString {T : Type} {N : Nat} [Inhabited T] (toStr : T → String) (v : tinyvec T N) :
    String :=
  ((List.range v.counter).foldl
    (fun res i =>
      if i = v.counter - 1 then res ++ toStr ((get v i).getD default) ++ sepSpace
      else res ++ toStr ((get v i).getD default) ++ sepComma)
    lbr) ++ rbr

/-- Spec-side rendering of a list of already-rendered elements, following
the spec's words: comma-separated, no trailing comma after the last
element, a trailing space before the closing bracket. -/
def renderElems : List String → String
  | [] => emptyStr
  | [e] => e ++ sepSpace
  | e :: rest => e ++ (sepComma ++ renderElems rest)

/-- Spec-side `extend`, following the spec's words: push each element of
the input sequence in order (repeated `push`). -/
def extendSpec {T : Type} {N : Nat} : tinyvec T N → List T → tinyvec T N
  | v, [] => v
  | v, x :: xs => extendSpec (push v x) xs

/-- One mutating call of the public API, for length-accounting sequences. -/
inductive Op (T : Type) : Type where
  | push : T → Op T
  | pop : Op T
  | remove : Nat → Op T
deriving DecidableEq

/-- Run one call; `none` when the call panics (spill `remove` out of bounds). -/
def runOp {T : Type} {N : Nat} [Inhabited T] (v : tinyvec T N) : Op T → Option (tinyvec T N)
  | Op.push x => some (push v x)
  | Op.pop => some (pop v).2
  | Op.remove i => (remove v i).map (fun p => p.2)

/-- Whether a call is "successful" in the sense of P1: every push; a pop on
a non-empty container; a remove with an in-range index. -/
def opSuccess {T : Type} {N : Nat} (v : tinyvec T N) : Op T → Bool
  | Op.push _ => true
  | Op.pop => decide (v.counter ≠ 0)
  | Op.remove i => decide (i < v.counter)

/-- Run a sequence of calls, counting pushes and successful pops/removes.
`none` when some call panicked. -/
def runCount {T : Type} {N : Nat} [Inhabited T] :
    tinyvec T N → List (Op T) → Option (tinyvec T N × Nat × Nat)
  | v, [] => some (v, 0, 0)
  | v, op :: ops =>
    match runOp v op with
    | none => none
    | some v' =>
      match runCount v' ops with
      | none => none
      | some (vf, p, s) =>
        match op with
        | Op.push _ => some (vf, p + 1, s)
        | _ => some (vf, p, if opSuccess v op then s + 1 else s)

/-! ## Basic facts used across claims -/

/-- Reading via `get` past the logical length is `none`. -/
theorem get_oob {T : Type} {N : Nat} (v : tinyvec T N) (i : Nat) (h : v.counter ≤ i) :
    get v i = none := by
  unfold get
  rw [if_pos h]

/-- Reading via `get` ignores the iteration cursor. -/
theorem get_set_iters {T : Type} {N : Nat} (v : tinyvec T N) (j : step_iter) (i : Nat) :
    get ({ v with iters := j } : tinyvec T N) i = get v i := rfl

/-- Calling `push` increments `counter` by one in both branches. -/
theorem push_counter {T : Type} {N : Nat} (v : tinyvec T N) (x : T) :
    (push v x).counter = v.counter + 1 := by
  unfold push
  split <;> rfl

/-- Calling `push` does not touch the iteration cursor. -/
theorem push_iters {T : Type} {N : Nat} (v : tinyvec T N) (x : T) :
    (push v x).iters = v.iters := by
  unfold push
  split <;> rfl

/-! ## C1 — the inline `remove` defect (evaluated at a failing input)

With `N = 1`, after `push 10; push 20` the container holds `10` inline and
`20` in spill. `remove(0)` shifts nothing (the loop `0..N-1` is empty),
never migrates the spill element `20` into the vacated inline region, and
decrements `counter` to 1; `get(0)` then returns `10`, not the
logically-shifted value `20`, and `20` (still in the heap) is unreachable. -/

/-- C1: concrete evaluation of the remove-across-boundary defect: for the
container `[10, 20]` with `N = 1` (`len > N`), `remove 0` leaves a state
whose `get 0` is `some 10`, not the logically-shifted value `some 20`
(the former first spill element), which remains stranded in the heap. -/
theorem C1_remove_inline_defect :
    remove (push (push (new Nat 1) 10) 20) 0 =
      some (some 10, ⟨[some 10], [20], 1, step_iter.Not⟩) ∧
    get (⟨[some 10], [20], 1, step_iter.Not⟩ : tinyvec Nat 1) 0 = some 10 ∧
    get (⟨[some 10], [20], 1, step_iter.Not⟩ : tinyvec Nat 1) 1 = none ∧
    (some 10 : Option Nat) ≠ some 20 := by
  refine ⟨by decide, by decide, by decide, by decide⟩

/-! ## C2 — `pop` reads inline slot `N - 1` instead of the last logical slot

With `N = 2`, after `push 10; push 20; remove 1` the state is
`stack = [some 10, some 20]`, `heap = []`, `counter = 1` (the source's
inline `remove` does not mark the vacated slot uninitialized). The last
logical element is `get 0 = some 10`, but `pop` reads slot `N - 1 = 1`
and returns `20`. (When `counter < N` and slot `N - 1` was never written,
the same read is of uninitialized memory — undefined behavior in Rust.) -/

/-- C2: concrete evaluation showing `pop` does not return the last logical
element: in the state reached by `push 10; push 20; remove 1` (with
`N = 2`, `len = 1`), `get (len - 1) = some 10` yet `pop` returns `20`. -/
theorem C2_pop_not_last_element :
    remove (push (push (new Nat 2) 10) 20) 1 =
      some (some 20, ⟨[some 10, some 20], [], 1, step_iter.Not⟩) ∧
    (pop (⟨[some 10, some 20], [], 1, step_iter.Not⟩ : tinyvec Nat 2)).1 = some 20 ∧
    (pop (⟨[some 10, some 20], [], 1, step_iter.Not⟩ : tinyvec Nat 2)).2.counter = 0 ∧
    get (⟨[some 10, some 20], [], 1, step_iter.Not⟩ : tinyvec Nat 2) 0 = some 10 ∧
    (some 20 : Option Nat) ≠ some 10 := by
  refine ⟨by decide, by decide, by decide, by decide, by decide⟩

/-! ## C3 — the spill branch of `remove` reads `heap[index]`, not `heap[index - N]`

With `N = 1` and elements `[1, 2, 3]` (`heap = [2, 3]`):
`remove 2` evaluates `heap[2]`, out of bounds — a Rust panic (outer `none`
in the model) — although `2 < len`; and `remove 1` returns `some 3`
(`heap[1]`) instead of the element at spill offset `1 - N = 0`, `some 2`,
while erasing `heap[0]`. -/

/-- C3: concrete evaluation of the spill-read defect: with `N = 1` and
elements `[1, 2, 3]`, `remove 2` panics (models `heap[2]` out of bounds)
even though `2 < len = 3`, and `remove 1` returns `some 3` instead of the
element `some 2` stored at spill offset `index - N = 0`. -/
theorem C3_remove_spill_defect :
    remove (extend (new Nat 1) [1, 2, 3]) 2 = none ∧
    remove (extend (new Nat 1) [1, 2, 3]) 1 =
      some (some 3, ⟨[some 1], [3], 2, step_iter.Not⟩) ∧
    (some 3 : Option Nat) ≠ some 2 := by
  refine ⟨by decide, by decide, by decide⟩

/-! ## C5 — out-of-range `get` and `remove` -/

/-- C5: for every container and every index at or past the logical length,
`get` returns `none`, and `remove` returns `none` (the absent result)
while leaving the container completely unchanged. -/
theorem C5_out_of_range_absent {T : Type} {N : Nat} (v : tinyvec T N) (i : Nat)
    (h : len v ≤ i) : get v i = none ∧ remove v i = some (none, v) := by
  have h' : v.counter ≤ i := h
  refine ⟨get_oob v i h', ?_⟩
  unfold remove
  rw [if_pos h']

/-- C5 witness: at the one-element container `push (new Nat 2) 4` and
index 7. -/
theorem C5_out_of_range_absent_witness :
    len (push (new Nat 2) 4) ≤ 7 ∧
    (get (push (new Nat 2) 4) 7 = none ∧
      remove (push (new Nat 2) 4) 7 = some (none, push (new Nat 2) 4)) :=
  ⟨by decide, C5_out_of_range_absent (push (new Nat 2) 4) 7 (by decide)⟩

/-! ## C7 — `pop` on an empty container -/

/-- C7: `pop` on a container with `len = 0` returns the element type's
default value and leaves the container (in particular its length)
completely unchanged. -/
theorem C7_pop_on_empty {T : Type} {N : Nat} [Inhabited T] (v : tinyvec T N)
    (h : len v = 0) : pop v = (some default, v) := by
  have h' : v.counter = 0 := h
  unfold pop
  rw [if_pos h']

/-- C7 witness: at the freshly constructed container `new Nat 3`. -/
theorem C7_pop_on_empty_witness :
    len (new Nat 3) = 0 ∧ pop (new Nat 3) = (some default, new Nat 3) :=
  ⟨by decide, C7_pop_on_empty (new Nat 3) (by decide)⟩

/-! ## Iterator stepping lemmas -/

/-- A `next` call on a container that has not started iterating: the cursor
becomes `Yes 0` and the call yields `get v 0`. -/
theorem next_not {T : Type} {N : Nat} (v : tinyvec T N) (h : v.iters = step_iter.Not) :
    next v = (get v 0, ({ v with iters := step_iter.Yes 0 } : tinyvec T N)) := by
  unfold next
  rw [h]
  simp [get_set_iters, Nat.zero_le]

/-- A `next` call with the cursor at `Yes j`: the cursor becomes
`Yes (j + 1)` and the call yields `get v (j + 1)` when `j + 1 ≤ counter`,
else `none`. -/
theorem next_yes {T : Type} {N : Nat} (v : tinyvec T N) (j : Nat)
    (h : v.iters = step_iter.Yes j) :
    next v = ((if j + 1 ≤ v.counter then get v (j + 1) else none),
      ({ v with iters := step_iter.Yes (j + 1) } : tinyvec T N)) := by
  unfold next
  rw [h]
  by_cases hc : j + 1 ≤ v.counter
  · simp [hc, get_set_iters]
  · simp [hc]

/-- After `k + 1` calls starting from a fresh cursor, the cursor is `Yes k`
and nothing else has changed. -/
theorem iterState_not {T : Type} {N : Nat} (v : tinyvec T N)
    (h : v.iters = step_iter.Not) (k : Nat) :
    iterState v (k + 1) = ({ v with iters := step_iter.Yes k } : tinyvec T N) := by
  induction k with
  | zero =>
    show (next (iterState v 0)).2 = _
    rw [show iterState v 0 = v from rfl, next_not v h]
  | succ k ih =>
    show (next (iterState v (k + 1))).2 = _
    rw [ih, next_yes ({ v with iters := step_iter.Yes k } : tinyvec T N) k rfl]

/-- After `k` calls starting from cursor `Yes j`, the cursor is
`Yes (j + k)` and nothing else has changed. -/
theorem iterState_yes {T : Type} {N : Nat} (v : tinyvec T N) (j : Nat)
    (h : v.iters = step_iter.Yes j) (k : Nat) :
    iterState v k = ({ v with iters := step_iter.Yes (j + k) } : tinyvec T N) := by
  induction k with
  | zero =>
    cases v with
    | mk s hp c it =>
      simp only [step_iter.Yes.injEq] at h ⊢
      simp [iterState, h]
  | succ k ih =>
    show (next (iterState v k)).2 = _
    rw [ih, next_yes ({ v with iters := step_iter.Yes (j + k) } : tinyvec T N) (j + k) rfl]
    rw [Nat.add_assoc]

/-! ## C6 — iteration yields the `get` sequence, then `none` forever -/

/-- C6: starting an iteration on a container with a fresh cursor, the
`(k+1)`-th `next` call yields exactly `get v k` — the logical elements in
index order for `k < len`, and `none` from the moment the cursor reaches
`len` onward (so a second traversal of the same instance yields nothing). -/
theorem C6_iteration_yields_elements {T : Type} {N : Nat} (v : tinyvec T N)
    (h : v.iters = step_iter.Not) (k : Nat) :
    iterOut v k = get v k ∧ (len v ≤ k → iterOut v k = none) := by
  have main : iterOut v k = get v k := by
    cases k with
    | zero =>
      show (next (iterState v 0)).1 = _
      rw [show iterState v 0 = v from rfl, next_not v h]
    | succ k =>
      show (next (iterState v (k + 1))).1 = _
      rw [iterState_not v h k,
        next_yes ({ v with iters := step_iter.Yes k } : tinyvec T N) k rfl]
      simp only [get_set_iters]
      split
      · rfl
      · exact (get_oob v (k + 1) (by omega)).symm
  exact ⟨main, fun hk => by rw [main]; exact get_oob v k hk⟩

/-- C6 witness: at the one-element container `push (new Nat 2) 5` and
step 0 (which yields `get v 0 = some 5`). -/
theorem C6_iteration_yields_elements_witness :
    (push (new Nat 2) 5).iters = step_iter.Not ∧
    (iterOut (push (new Nat 2) 5) 0 = get (push (new Nat 2) 5) 0 ∧
      (len (push (new Nat 2) 5) ≤ 0 → iterOut (push (new Nat 2) 5) 0 = none)) :=
  ⟨by decide, C6_iteration_yields_elements (push (new Nat 2) 5) (by decide) 0⟩

/-! ## C10 — the cursor advances even when nothing is yielded -/

/-- C10: calling `next` once on an empty container yields `none` but moves
the cursor to `Yes 0`; after then pushing one element, every later `next`
call still yields `none` — the element at logical index 0 is never
produced by that iterator. -/
theorem C10_cursor_skips_pushed_element {T : Type} {N : Nat} (v : tinyvec T N) (x : T)
    (k : Nat) (h0 : len v = 0) (h1 : v.iters = step_iter.Not) :
    (next v).1 = none ∧ iterOut (push (next v).2 x) k = none := by
  have hc : v.counter = 0 := h0
  have hfst : (next v).1 = none := by
    rw [next_not v h1]
    exact get_oob v 0 (by omega)
  refine ⟨hfst, ?_⟩
  have hsnd : (next v).2 = ({ v with iters := step_iter.Yes 0 } : tinyvec T N) := by
    rw [next_not v h1]
  have hv2iters : (push (next v).2 x).iters = step_iter.Yes 0 := by
    rw [push_iters, hsnd]
  have hv2counter : (push (next v).2 x).counter = 1 := by
    rw [push_counter, hsnd]
    show v.counter + 1 = 1
    omega
  show (next (iterState (push (next v).2 x) k)).1 = none
  rw [iterState_yes (push (next v).2 x) 0 hv2iters k,
    next_yes ({ push (next v).2 x with iters := step_iter.Yes (0 + k) } : tinyvec T N)
      (0 + k) rfl]
  simp only [get_set_iters]
  split
  · exact get_oob (push (next v).2 x) (0 + k + 1) (by omega)
  · rfl

/-- C10 witness: the empty container `new Nat 2`, pushed value 9, step 3. -/
theorem C10_cursor_skips_pushed_element_witness :
    len (new Nat 2) = 0 ∧ (new Nat 2).iters = step_iter.Not ∧
    ((next (new Nat 2)).1 = none ∧ iterOut (push (next (new Nat 2)).2 9) 3 = none) :=
  ⟨by decide, by decide,
    C10_cursor_skips_pushed_element (new Nat 2) 9 3 (by decide) (by decide)⟩

/-! ## C8 — `extend` is repeated `push` -/

/-- C8: for every container state and every input slice, `extend` produces
exactly the final state of pushing each element in order (the spec-side
`extendSpec`). -/
theorem C8_extend_is_repeated_push {T : Type} {N : Nat} (v : tinyvec T N)
    (elements : List T) : extend v elements = extendSpec v elements := by
  induction elements generalizing v with
  | nil => rfl
  | cons x xs ih => exact ih (push v x)

/-! ## C4 — length accounting over call sequences -/

/-- Calling `pop` leaves `counter` unchanged on an empty container and decrements
it by one otherwise. -/
theorem pop_state_counter {T : Type} {N : Nat} [Inhabited T] (v : tinyvec T N) :
    (pop v).2.counter = if v.counter = 0 then v.counter else v.counter - 1 := by
  unfold pop
  by_cases h : v.counter = 0
  · simp [h]
  · rw [if_neg h, if_neg h]
    split <;> rfl

/-- A non-panicking `remove` either hits an out-of-range index and returns
the container unchanged, or hits an in-range index and decrements
`counter` by one. -/
theorem remove_ok_counter {T : Type} {N : Nat} (v : tinyvec T N) (i : Nat) (r : Option T)
    (v' : tinyvec T N) (h : remove v i = some (r, v')) :
    (v.counter ≤ i ∧ v' = v) ∨ (i < v.counter ∧ v'.counter = v.counter - 1) := by
  unfold remove at h
  by_cases hle : v.counter ≤ i
  · rw [if_pos hle] at h
    simp at h
    exact Or.inl ⟨hle, h.2.symm⟩
  · right
    refine ⟨by omega, ?_⟩
    rw [if_neg hle] at h
    by_cases hN : i < N
    · rw [if_pos hN] at h
      simp at h
      rw [← h.2]
    · rw [if_neg hN] at h
      cases hg : v.heap.get? i with
      | none => rw [hg] at h; simp at h
      | some value =>
        rw [hg] at h
        simp at h
        rw [← h.2]

/-- Invariant behind P1: a completed (non-panicking) run satisfies
`final counter + successes = initial counter + pushes`. -/
theorem runCount_invariant {T : Type} {N : Nat} [Inhabited T] (ops : List (Op T)) :
    ∀ (v vf : tinyvec T N) (p s : Nat), runCount v ops = some (vf, p, s) →
      vf.counter + s = v.counter + p := by
  induction ops with
  | nil =>
    intro v vf p s h
    simp [runCount] at h
    obtain ⟨h1, h2, h3⟩ := h
    subst h1
    omega
  | cons op ops ih =>
    intro v vf p s h
    unfold runCount at h
    cases op with
    | push x =>
      simp only [runOp] at h
      cases hrc : runCount (push v x) ops with
      | none => rw [hrc] at h; simp at h
      | some res =>
        obtain ⟨vf0, p0, s0⟩ := res
        rw [hrc] at h
        simp at h
        obtain ⟨h1, h2, h3⟩ := h
        have hr := ih (push v x) vf0 p0 s0 hrc
        rw [push_counter] at hr
        subst h1
        omega
    | pop =>
      simp only [runOp] at h
      cases hrc : runCount (pop v).2 ops with
      | none => rw [hrc] at h; simp at h
      | some res =>
        obtain ⟨vf0, p0, s0⟩ := res
        rw [hrc] at h
        have hr := ih (pop v).2 vf0 p0 s0 hrc
        rw [pop_state_counter] at hr
        by_cases hz : v.counter = 0
        · simp [opSuccess, hz] at h hr
          obtain ⟨h1, h2, h3⟩ := h
          subst h1
          omega
        · simp [opSuccess, hz] at h hr
          obtain ⟨h1, h2, h3⟩ := h
          subst h1
          omega
    | remove i =>
      simp only [runOp] at h
      cases hrem : remove v i with
      | none => rw [hrem] at h; simp at h
      | some pr =>
        obtain ⟨r, v1⟩ := pr
        rw [hrem] at h
        simp only [Option.map_some'] at h
        cases hrc : runCount v1 ops with
        | none => rw [hrc] at h; simp at h
        | some res =>
          obtain ⟨vf0, p0, s0⟩ := res
          rw [hrc] at h
          have hr := ih v1 vf0 p0 s0 hrc
          have hro := remove_ok_counter v i r v1 hrem
          by_cases hi : i < v.counter
          · simp [opSuccess, hi] at h
            obtain ⟨h1, h2, h3⟩ := h
            subst h1
            rcases hro with ⟨hle, _⟩ | ⟨_, hcnt⟩
            · omega
            · omega
          · simp [opSuccess, hi] at h
            obtain ⟨h1, h2, h3⟩ := h
            subst h1
            rcases hro with ⟨_, hveq⟩ | ⟨hlt, _⟩
            · subst hveq; omega
            · omega

/-- C4: after any completed (non-panicking) sequence of `push`/`pop`/`remove`
calls on a newly constructed container, `len` equals the number of pushes
minus the number of successful pops/removes, where a pop on an empty
container and a remove with an out-of-range index count as unsuccessful
and do not decrement (and `len`, a natural number, never goes below 0:
the successes never exceed the pushes). -/
theorem C4_length_accounting {T : Type} {N : Nat} [Inhabited T] (ops : List (Op T))
    (vf : tinyvec T N) (p s : Nat) (h : runCount (new T N) ops = some (vf, p, s)) :
    len vf + s = p ∧ s ≤ p := by
  have hr := runCount_invariant ops (new T N) vf p s h
  have hz : (new T N).counter = 0 := rfl
  unfold len
  omega

/-- C4 witness: the sequence push 5; pop; pop (unsuccessful, empty);
push 7; remove 0; remove 3 (unsuccessful, out of range) on `new Nat 2`
ends with `len = 0`, 2 pushes and 2 successes. -/
theorem C4_length_accounting_witness :
    runCount (new Nat 2) [Op.push 5, Op.pop, Op.pop, Op.push 7, Op.remove 0, Op.remove 3] =
      some (⟨[none, none], [], 0, step_iter.Not⟩, 2, 2) ∧
    (len (⟨[none, none], [], 0, step_iter.Not⟩ : tinyvec Nat 2) + 2 = 2 ∧ 2 ≤ 2) :=
  ⟨by decide,
    C4_length_accounting [Op.push 5, Op.pop, Op.pop, Op.push 7, Op.remove 0, Op.remove 3]
      (⟨[none, none], [], 0, step_iter.Not⟩ : tinyvec Nat 2) 2 2 (by decide)⟩

/-! ## C9 — the Display rendering -/

/-- Unfolding `renderElems` on a list of at least two elements: head, comma
separator, rest. -/
theorem renderElems_cons (e a : String) (rest : List String) :
    renderElems (e :: a :: rest) = e ++ (sepComma ++ renderElems (a :: rest)) := by
  simp [renderElems]

/-- In the Display fold, iterations whose index differs from the last one
always take the comma branch. -/
theorem foldl_no_last (f : Nat → String) (m : Nat) :
    ∀ (l : List Nat) (init : String), (∀ i ∈ l, i ≠ m) →
      l.foldl (fun res i =>
          if i = m then res ++ f i ++ sepSpace else res ++ f i ++ sepComma) init
        = l.foldl (fun res i => res ++ f i ++ sepComma) init := by
  intro l
  induction l with
  | nil => intro init _; rfl
  | cons a l ih =>
    intro init hne
    have ha : a ≠ m := hne a (List.mem_cons_self a l)
    simp only [List.foldl_cons, if_neg ha]
    exact ih (init ++ f a ++ sepComma) (fun i hi => hne i (List.mem_cons_of_mem a hi))

/-- Closing a comma-separated fold with a final element and the trailing
space produces the spec-side rendering of the extended element list. -/
theorem foldl_comma_render (x : String) :
    ∀ (l : List String) (init : String),
      l.foldl (fun r e => r ++ e ++ sepComma) init ++ x ++ sepSpace
        = init ++ renderElems (l ++ [x]) := by
  intro l
  induction l with
  | nil =>
    intro init
    show init ++ x ++ sepSpace = init ++ renderElems [x]
    simp [renderElems, String.append_assoc]
  | cons e l ih =>
    intro init
    show l.foldl (fun r e => r ++ e ++ sepComma) (init ++ e ++ sepComma) ++ x ++ sepSpace
      = init ++ renderElems (e :: (l ++ [x]))
    rw [ih (init ++ e ++ sepComma)]
    cases l with
    | nil =>
      simp only [List.nil_append]
      rw [renderElems_cons e x []]
      simp [String.append_assoc]
    | cons a l' =>
      rw [List.cons_append, renderElems_cons e a (l' ++ [x])]
      simp [String.append_assoc]

/-- The Display loop over `0..n` equals the spec-side rendering of the
element list. -/
theorem fmt_fold_eq (f : Nat → String) (n : Nat) :
    (List.range n).foldl
        (fun res i =>
          if i = n - 1 then res ++ f i ++ sepSpace else res ++ f i ++ sepComma) lbr
      = lbr ++ renderElems ((List.range n).map f) := by
  cases n with
  | zero => simp [renderElems, emptyStr, String.append_empty]
  | succ n =>
    rw [List.range_succ, List.foldl_append, List.map_append]
    simp only [Nat.add_sub_cancel, List.map_cons, List.map_nil, List.foldl_cons,
      List.foldl_nil, if_pos rfl]
    rw [foldl_no_last f n (List.range n) lbr
      (fun i hi => by have := List.mem_range.mp hi; omega)]
    rw [← List.foldl_map f (fun r e => r ++ e ++ sepComma) (List.range n) lbr]
    exact foldl_comma_render (f n) ((List.range n).map f) lbr

/-- C9: the textual rendering is the opening `"[ "`, the comma-separated
spec-side rendering of the `len` logical elements in index order — no
trailing comma after the last element, a trailing space before the closing
bracket — and the closing `"]"`; the element list is drawn from `get` at
indices `0..len-1` only, so no element at an index `≥ len` is read. -/
theorem C9_display_format {T : Type} {N : Nat} [Inhabited T] (toStr : T → String)
    (v : tinyvec T N) :
    fmtString toStr v =
      lbr ++ renderElems ((List.range (len v)).map
        (fun i => toStr ((get v i).getD default))) ++ rbr := by
  unfold fmtString len
  exact congrArg (fun s => s ++ rbr)
    (fmt_fold_eq (fun i => toStr ((get v i).getD default)) v.counter)

end TinyvecModel
